import Mathlib

/-!
Verification development for the `negbin_fit` numerical core
(`src/negbin_fit/helpers.py`).

The Python module builds discrete probability mass arrays for (mixtures of)
negative-binomial and geometric distributions over a bounded integer support
`0..size`, with left-truncation and renormalization, converts sparse
`(ref, alt, counts)` observation tables to dense matrices, and scores fits
with an RMSEA-style statistic.

Embedding conventions:
* floats are embedded as exact rationals `ℚ`; the real-valued scoring
  functions (which use `log` and `sqrt`) live in `ℝ`;
* `scipy.stats.nbinom(r, q).pmf(k)` is `C(k+r-1, k) * q^r * (1-q)^k` and the
  CDF at an integer argument is the partial sum of the pmf; likewise for
  `scipy.stats.geom`;
* numpy's elementwise division of an array by a scalar raises no exception
  when the scalar is zero: it produces non-finite entries (`nan`/`inf`).
  Functions of the source that divide by their normalizer *without* a zero
  guard (`make_cover_negative_binom_density`, `make_geom_dens`,
  `combine_densities`) are embedded with result type `Option (List ℚ)`,
  where `none` models the non-finite (not-a-number) array resulting from the
  unguarded division by zero, and `some` the ordinary finite result;
* a pandas DataFrame with columns `ref`, `alt`, `counts` is embedded as a
  list of `StatsRow` plus an optional `cover` column; pandas column
  assignment (`df['cover'] = ...`) mutates the frame in place, which the
  embedding renders as explicit state passing.
-/

/-- Probability mass function of `scipy.stats.nbinom(r, q)` at `k`:
`C(k+r-1, k) * q^r * (1-q)^k`. -/
def nbinomPmf (r : ℕ) (q : ℚ) (k : ℕ) : ℚ :=
  (Nat.choose (k + r - 1) k : ℚ) * q ^ r * (1 - q) ^ k

/-- Cumulative distribution function of `scipy.stats.nbinom(r, q)` at the
integer `k`: the partial sum of the pmf over `0..k`. -/
def nbinomCdf (r : ℕ) (q : ℚ) (k : ℕ) : ℚ :=
  ∑ j ∈ Finset.range (k + 1), nbinomPmf r q j

/-- The combined normalizer `negative_binom_norm` computed inside
`make_negative_binom_density`: for each mode, CDF at `size_of_counts` minus
CDF at `left_most - 1` (the latter replaced by `0` when `left_most < 1`),
weighted by `w` and `1 - w`.  `dist1 = st.nbinom(r, 1 - (1 - p2))` and
`dist2 = st.nbinom(r, 1 - p)`. -/
def negBinomNorm (r : ℕ) (p w : ℚ) (size_of_counts left_most : ℕ)
    (p2 : Option ℚ) : ℚ :=
  let p2v := p2.getD p
  (nbinomCdf r (1 - (1 - p2v)) size_of_counts -
      (if 1 ≤ left_most then nbinomCdf r (1 - (1 - p2v)) (left_most - 1) else 0)) * w +
    (nbinomCdf r (1 - p) size_of_counts -
      (if 1 ≤ left_most then nbinomCdf r (1 - p) (left_most - 1) else 0)) * (1 - w)

/-- `make_negative_binom_density(r, p, w, size_of_counts, left_most, p2=None)`:
array of length `size_of_counts + 1`, zero below `left_most`, and for
`left_most ≤ k ≤ size_of_counts` the value
`(w * f1(k) + (1-w) * f2(k)) / negative_binom_norm` guarded by
`if negative_binom_norm != 0 else 0`. -/
def make_negative_binom_density (r : ℕ) (p w : ℚ)
    (size_of_counts left_most : ℕ) (p2 : Option ℚ) : List ℚ :=
  let p2v := p2.getD p
  let f1 := nbinomPmf r (1 - (1 - p2v))
  let f2 := nbinomPmf r (1 - p)
  let nrm := negBinomNorm r p w size_of_counts left_most p2
  (List.range (size_of_counts + 1)).map fun k =>
    if left_most ≤ k then
      (if nrm ≠ 0 then (w * f1 k + (1 - w) * f2 k) / nrm else 0)
    else 0

/-- `make_inferred_negative_binom_density(m, r0, p0, p, max_c, min_c)`:
delegates to `make_negative_binom_density` with shape `m + r0`, success
probability `p * p0`, the closed-form odds-ratio mixture weight, and
`p2 = (1 - p) * p0`.  The source allows a real-valued `r0`; the shape
parameter feeds a binomial coefficient, so the embedding takes `r0 : ℕ`. -/
def make_inferred_negative_binom_density (m r0 : ℕ) (p0 p : ℚ)
    (max_c min_c : ℕ) : List ℚ :=
  make_negative_binom_density (m + r0) (p * p0)
    (1 / (1 + p ^ m * ((1 - p * p0) / (1 - p0 * (1 - p))) ^ (m + r0) / (1 - p) ^ r0))
    max_c min_c (some ((1 - p) * p0))

/-- Probability mass function of `scipy.stats.geom(1 - p)` at `k`: support is
`k ≥ 1`, with `pmf(k) = (1 - p) * p^(k-1)`; `pmf(0) = 0`. -/
def geomPmf (p : ℚ) (k : ℕ) : ℚ :=
  if k = 0 then 0 else (1 - p) * p ^ (k - 1)

/-- Cumulative distribution function of `scipy.stats.geom(1 - p)` at the
integer `k`: the partial sum of the pmf over `0..k`. -/
def geomCdf (p : ℚ) (k : ℕ) : ℚ :=
  ∑ j ∈ Finset.range (k + 1), geomPmf p j

/-- The normalizer `geom_norm` of `make_geom_dens`: `cdf(b) - cdf(a-1)`, the
subtrahend replaced by `0` when `a < 1`. -/
def geomNorm (p : ℚ) (a b : ℕ) : ℚ :=
  geomCdf p b - (if 1 ≤ a then geomCdf p (a - 1) else 0)

/-- `make_geom_dens(p, a, b, draw_rest=False)`: entries `f(k)` for `k ≥ a`
(or unconditionally under `draw_rest`), else `0`, the whole array divided by
`geom_norm` with no zero guard.  `none` models the non-finite numpy array
produced when `geom_norm` is zero. -/
def make_geom_dens (p : ℚ) (a b : ℕ) (draw_rest : Bool) : Option (List ℚ) :=
  let nrm := geomNorm p a b
  if nrm = 0 then none
  else some ((List.range (b + 1)).map fun k =>
    (if a ≤ k ∨ draw_rest = true then geomPmf p k else 0) / nrm)

/-- The normalizer of `make_cover_negative_binom_density`:
`cdf(size_of_counts) - cdf(left_most - 1)`, the subtrahend replaced by `0`
when `left_most < 1`, for `dist = st.nbinom(r, 1 - p)`. -/
def coverNorm (r : ℕ) (p : ℚ) (size_of_counts left_most : ℕ) : ℚ :=
  nbinomCdf r (1 - p) size_of_counts -
    (if 1 ≤ left_most then nbinomCdf r (1 - p) (left_most - 1) else 0)

/-- `make_cover_negative_binom_density(r, p, size_of_counts, left_most,
log=False, draw_rest=False)`: entries `f(k)` for `k ≥ left_most` (or
unconditionally under `draw_rest`), else `0`, the whole array divided by the
normalizer with no zero guard.  Only the linear-space branch (`log=False`) is
embedded; `none` models the non-finite numpy array produced when the
normalizer is zero. -/
def make_cover_negative_binom_density (r : ℕ) (p : ℚ)
    (size_of_counts left_most : ℕ) (draw_rest : Bool) : Option (List ℚ) :=
  let nrm := coverNorm r p size_of_counts left_most
  if nrm = 0 then none
  else some ((List.range (size_of_counts + 1)).map fun k =>
    (if left_most ≤ k ∨ draw_rest = true then nbinomPmf r (1 - p) k else 0) / nrm)

/-- `combine_densities(negbin_dens, geom_dens, w, frac, p, allele_tr=5,
only_negbin=False)`: the elementwise combination
`comb = w * geom + (1 - w) * negbin`; when `only_negbin`, returns
`(1 - w) * negbin / comb.sum()`, otherwise `comb / comb.sum()` — in both
cases dividing by the combined mixture's total mass with no zero guard
(`none` models the non-finite numpy result when that mass is zero).
`frac`, `p` and `allele_tr` are accepted but unused: the correction term
that used them is commented out in the source. -/
def combine_densities (negbin_dens geom_dens : List ℚ) (w frac p : ℚ)
    (allele_tr : ℕ) (only_negbin : Bool) : Option (List ℚ) :=
  let comb := List.zipWith (fun g n => w * g + (1 - w) * n) geom_dens negbin_dens
  if comb.sum = 0 then none
  else if only_negbin then
    some (negbin_dens.map fun x => (1 - w) * x / comb.sum)
  else
    some (comb.map fun x => x / comb.sum)

/-- One row of the observation table: columns `ref`, `alt`, `counts`. -/
structure StatsRow where
  ref : ℤ
  alt : ℤ
  counts : ℤ
deriving DecidableEq, Repr

/-- The observation DataFrame: its three mandatory columns as rows, plus the
optional derived `cover` column (absent until some operation assigns it). -/
structure StatsDf where
  rows : List StatsRow
  cover : Option (List ℤ)
deriving DecidableEq, Repr

/-- The rows of the table matching a fixed `(ref, alt)` pair — the slice
`stats_df[(stats_df['ref'] == k) & (stats_df['alt'] == m)]`. -/
def matchRows (rows : List StatsRow) (k m : ℕ) : List StatsRow :=
  rows.filter fun r => decide (r.ref = (k : ℤ) ∧ r.alt = (m : ℤ))

/-- One cell of `stats_df_to_numpy`: an empty slice leaves the zero in
place; a one-row slice assigns its `counts` as a scalar; assigning a
multi-row slice to the scalar cell raises a `ValueError` (the `.error`
case). -/
def cellValue (rows : List StatsRow) (k m : ℕ) : Except Unit ℤ :=
  match matchRows rows k m with
  | [] => .ok 0
  | [r] => .ok r.counts
  | _ => .error ()

/-- `stats_df_to_numpy(stats_df, min_tr, max_tr)`: a `(max_tr+1) × (max_tr+1)`
integer matrix, zero outside `[min_tr, max_tr]^2`, each in-range cell filled
from the matching table slice; the whole construction aborts with the first
ambiguous (multi-row) slice, in the source's row-major visit order. -/
def stats_df_to_numpy (rows : List StatsRow) (min_tr max_tr : ℕ) :
    Except Unit (List (List ℤ)) :=
  (List.range (max_tr + 1)).mapM fun k =>
    (List.range (max_tr + 1)).mapM fun m =>
      if min_tr ≤ k ∧ min_tr ≤ m then cellValue rows k m else .ok 0

/-- The cell value in the words of the spec: the `counts` value of the
matching row, or `0` if no row matches. -/
def specCell (rows : List StatsRow) (k m : ℕ) : ℤ :=
  match matchRows rows k m with
  | [] => 0
  | r :: _ => r.counts

/-- The matrix in the words of the spec: for each `(ref, alt)` in
`[min_tr, max_tr]^2` the unique matching row's `counts` (or `0`), all other
entries zero. -/
def specMatrix (rows : List StatsRow) (min_tr max_tr : ℕ) : List (List ℤ) :=
  (List.range (max_tr + 1)).map fun k =>
    (List.range (max_tr + 1)).map fun m =>
      if min_tr ≤ k ∧ min_tr ≤ m then specCell rows k m else 0

/-- `get_counts_dist_from_df(stats_df)`: first executes
`stats_df['cover'] = stats_df['ref'] + stats_df['alt']`, a pandas column
assignment that mutates the caller's frame in place (returned as the first
component), then returns, for each `cover` in
`range(stats_df['cover'].max())` — the maximum itself excluded — the sum of
`counts` over the rows with that coverage. -/
def get_counts_dist_from_df (stats_df : StatsDf) : StatsDf × List ℤ :=
  let coverCol := stats_df.rows.map fun r => r.ref + r.alt
  let mutated : StatsDf := { stats_df with cover := some coverCol }
  let mx := (coverCol.foldr max 0).toNat
  (mutated,
    (List.range mx).map fun c =>
      ((mutated.rows.filter fun r => decide (r.ref + r.alt = (c : ℤ))).map
        fun r => r.counts).sum)

/-- `rmsea_gof(stat, df, norm)`: `0` when `norm <= 1`, else
`sqrt(max(stat - df, 0) / (df * (norm - 1)))`. -/
noncomputable def rmsea_gof (stat df norm : ℝ) : ℝ :=
  if norm ≤ 1 then 0 else Real.sqrt (max (stat - df) 0 / (df * (norm - 1)))

/-- The joint-nonzero index mask `(observed != 0) & (expected != 0)` of
`calculate_gof_for_point_fit`, as a predicate on (observed, expected)
pairs. -/
def gofPairPred (q : ℚ × ℚ) : Bool :=
  decide (q.1 ≠ 0) && decide (q.2 ≠ 0)

/-- The retained (observed, expected) pairs of `calculate_gof_for_point_fit`:
the observed copy with the entries below `left_most` overwritten by `0`,
zipped with the expected entries, restricted by the joint-nonzero mask
`idxs`. -/
def validPairs (counts_array expected : List ℚ) (left_most : ℕ) :
    List (ℚ × ℚ) :=
  ((counts_array.mapIdx fun i x => if i < left_most then 0 else x).zip
    expected).filter gofPairPred

/-- `calculate_gof_for_point_fit(counts_array, expected, norm,
number_of_params, left_most)`: copies the observed counts, zeroes the
entries below `left_most`, keeps the indices where both observed and
expected are nonzero, returns `0` when at most `number_of_params + 1`
remain, else the RMSEA score of the likelihood-ratio statistic
`np.sum(observed * log(observed / expected)) * 2` with
`df = idxs.sum() - 1 - number_of_params`. -/
noncomputable def calculate_gof_for_point_fit (counts_array expected : List ℚ)
    (norm : ℚ) (number_of_params left_most : ℕ) : ℝ :=
  let pairs := validPairs counts_array expected left_most
  if pairs.length ≤ number_of_params + 1 then 0
  else
    rmsea_gof
      ((pairs.map fun q => (q.1 : ℝ) * Real.log ((q.1 : ℝ) / (q.2 : ℝ))).sum * 2)
      (((pairs.length : ℤ) - 1 - (number_of_params : ℤ) : ℤ) : ℝ)
      (norm : ℝ)

/-- Truncation toward zero: the conversion applied to each float stored into
a numpy array of dtype `np.int_`. -/
def truncQ (x : ℚ) : ℤ :=
  if 0 ≤ x then ⌊x⌋ else ⌈x⌉

/-- Column `c` of an integer matrix held as a list of rows. -/
def matCol (m : List (List ℤ)) (c : ℕ) : List ℤ :=
  m.map fun row => row.getD c 0

/-- `observed_for_fix_c.sum()`: the total of column `c`. -/
def colNorm (m : List (List ℤ)) (c : ℕ) : ℤ :=
  (matCol m c).sum

/-- The column `density_func(fix_c) * norm` as stored into the
`dtype=np.int_` matrix `expected`: every float entry truncated toward
zero. -/
def expectedCol (dens : List ℚ) (norm : ℚ) (n : ℕ) : List ℤ :=
  (List.range n).map fun k => truncQ (dens.getD k 0 * norm)

/-- The `expected` matrix of `calculate_overall_gof`: allocated as zeros of
dtype `np.int_`, its columns `min_tr..max_tr` overwritten with the truncated
scaled densities. -/
def expectedMatrix (observed : List (List ℤ)) (density_func : ℕ → List ℚ)
    (min_tr max_tr : ℕ) : List (List ℤ) :=
  (List.range (max_tr + 1)).map fun k =>
    (List.range (max_tr + 1)).map fun c =>
      if min_tr ≤ c then
        (expectedCol (density_func c) ((colNorm observed c : ℤ) : ℚ) (max_tr + 1)).getD k 0
      else 0

/-- Transpose of a square `n × n` matrix held as a list of rows. -/
def transposeSq (n : ℕ) (m : List (List ℤ)) : List (List ℤ) :=
  (List.range n).map fun i => m.map fun row => row.getD i 0

/-- `calculate_overall_gof(stats_df, density_func, params, main_allele,
min_tr, max_tr, num_params)`: builds the observed matrix (transposed when
`main_allele == 'alt'`, i.e. `main_allele_is_ref = false`), fills the
integer-typed `expected` matrix column by column with
`density_func(fix_c) * norm` (truncated toward zero by the dtype), scores
each fixed-coverage column with `calculate_gof_for_point_fit`, and also
scores the flattened matrices overall.  `num_params` stands for the
resolved `len(params)`-or-explicit parameter count. -/
noncomputable def calculate_overall_gof (rows : List StatsRow)
    (density_func : ℕ → List ℚ) (num_params : ℕ) (main_allele_is_ref : Bool)
    (min_tr max_tr : ℕ) : Except Unit (List (ℕ × ℝ) × ℝ) := do
  let observed0 ← stats_df_to_numpy rows min_tr max_tr
  let observed := if main_allele_is_ref then observed0
    else transposeSq (max_tr + 1) observed0
  let expected := expectedMatrix observed density_func min_tr max_tr
  let point_gofs := (List.range (max_tr + 1)).filterMap fun c =>
    if min_tr ≤ c then
      some (c, calculate_gof_for_point_fit
        ((matCol observed c).map fun z => (z : ℚ))
        ((matCol expected c).map fun z => (z : ℚ))
        ((colNorm observed c : ℤ) : ℚ) num_params min_tr)
    else none
  let overall := calculate_gof_for_point_fit
    (observed.flatten.map fun z => (z : ℚ))
    (expected.flatten.map fun z => (z : ℚ))
    ((observed.flatten.sum : ℤ) : ℚ) num_params min_tr
  return (point_gofs, overall)

/-- `stats_df_to_numpy` as a table-consuming operation in state-passing
form: it only reads the frame (boolean-mask slicing does not mutate), so the
frame comes back as given. -/
def stats_df_to_numpy_st (stats_df : StatsDf) (min_tr max_tr : ℕ) :
    StatsDf × Except Unit (List (List ℤ)) :=
  (stats_df, stats_df_to_numpy stats_df.rows min_tr max_tr)

/-- `calculate_overall_gof` as a table-consuming operation in state-passing
form: it reads the frame only through `stats_df_to_numpy`, so the frame
comes back as given. -/
noncomputable def calculate_overall_gof_st (stats_df : StatsDf)
    (density_func : ℕ → List ℚ) (num_params : ℕ) (main_allele_is_ref : Bool)
    (min_tr max_tr : ℕ) : StatsDf × Except Unit (List (ℕ × ℝ) × ℝ) :=
  (stats_df,
    calculate_overall_gof stats_df.rows density_func num_params
      main_allele_is_ref min_tr max_tr)

/-! ### Helper lemmas -/

theorem getD_map_range {α : Type} (g : ℕ → α) (d : α) {n k : ℕ} (hk : k < n) :
    ((List.range n).map g).getD k d = g k := by
  simp [List.getD_eq_getElem?_getD, List.getElem?_range hk]

theorem getD_map_range_ge {α : Type} (g : ℕ → α) (d : α) {n k : ℕ} (hk : n ≤ k) :
    ((List.range n).map g).getD k d = d := by
  have h : ((List.range n).map g).length ≤ k := by simpa using hk
  rw [List.getD_eq_getElem?_getD, List.getElem?_eq_none h]
  rfl

theorem sum_Icc_eq_sub (f : ℕ → ℚ) {left size : ℕ} (h : left ≤ size + 1) :
    ∑ k ∈ Finset.Icc left size, f k =
      ∑ k ∈ Finset.range (size + 1), f k - ∑ k ∈ Finset.range left, f k := by
  rw [← Nat.Ico_succ_right, Finset.sum_Ico_eq_sub f h]

theorem nbinom_guard_eq (r : ℕ) (q : ℚ) (left : ℕ) :
    (if 1 ≤ left then nbinomCdf r q (left - 1) else 0) =
      ∑ j ∈ Finset.range left, nbinomPmf r q j := by
  cases left with
  | zero => simp
  | succ n => simp [nbinomCdf]

theorem make_negative_binom_density_getD (r : ℕ) (p w : ℚ)
    (size_of_counts left_most : ℕ) (p2 : Option ℚ) {k : ℕ}
    (hk : k < size_of_counts + 1) :
    (make_negative_binom_density r p w size_of_counts left_most p2).getD k 0 =
      if left_most ≤ k then
        (if negBinomNorm r p w size_of_counts left_most p2 ≠ 0 then
          (w * nbinomPmf r (1 - (1 - p2.getD p)) k +
              (1 - w) * nbinomPmf r (1 - p) k) /
            negBinomNorm r p w size_of_counts left_most p2
        else 0)
      else 0 := by
  simp only [make_negative_binom_density]
  rw [getD_map_range _ _ hk]

theorem make_negative_binom_density_getD_ge (r : ℕ) (p w : ℚ)
    (size_of_counts left_most : ℕ) (p2 : Option ℚ) {k : ℕ}
    (hk : size_of_counts + 1 ≤ k) :
    (make_negative_binom_density r p w size_of_counts left_most p2).getD k 0 = 0 := by
  simp only [make_negative_binom_density]
  exact getD_map_range_ge _ _ hk

/-! ### Claims -/

/-- Claim C3: `inferredNegativeBinomialDensity(m, r0, p0, p, maxC, minC)`
returns exactly the array of `negativeBinomialDensity` called with
`r = m + r0`, success probability `p * p0`, mixture weight
`w = 1 / (1 + p^m * ((1 - p*p0)/(1 - p0*(1-p)))^(m+r0) / (1-p)^r0)`,
size `maxC`, leftMost `minC`, and `p2 = (1-p) * p0`. -/
theorem inferred_density_delegates (m r0 : ℕ) (p0 p : ℚ) (max_c min_c : ℕ) :
    make_inferred_negative_binom_density m r0 p0 p max_c min_c =
      make_negative_binom_density (m + r0) (p * p0)
        (1 / (1 + p ^ m * ((1 - p * p0) / (1 - p0 * (1 - p))) ^ (m + r0) /
          (1 - p) ^ r0))
        max_c min_c (some ((1 - p) * p0)) := rfl

/-- Claim C5: `rmseaScore(stat, df, norm)` returns exactly `0` when
`norm ≤ 1`, and otherwise `sqrt(max(stat - df, 0) / (df * (norm - 1)))`,
for every `stat` and `df`. -/
theorem rmsea_gof_spec (stat df norm : ℝ) :
    (norm ≤ 1 → rmsea_gof stat df norm = 0) ∧
    (¬ norm ≤ 1 → rmsea_gof stat df norm =
      Real.sqrt (max (stat - df) 0 / (df * (norm - 1)))) := by
  constructor
  · intro h
    rw [rmsea_gof, if_pos h]
  · intro h
    rw [rmsea_gof, if_neg h]

theorem rmsea_gof_spec_witness :
    ((0 : ℝ) ≤ 1 ∧ rmsea_gof 5 2 0 = 0) ∧
    (¬ (3 : ℝ) ≤ 1 ∧ rmsea_gof 7 2 3 =
      Real.sqrt (max ((7 : ℝ) - 2) 0 / (2 * (3 - 1)))) :=
  ⟨⟨by norm_num, (rmsea_gof_spec 5 2 0).1 (by norm_num)⟩,
    ⟨by norm_num, (rmsea_gof_spec 7 2 3).2 (by norm_num)⟩⟩

/-- Claim C1 counterexample: with `leftMost` just above `sizeOfCounts` the
truncated-range normalizer of `geometricDensity` and of
`coverNegativeBinomialDensity` is exactly zero, yet neither returns an
all-zero array: their division by the normalizer is unguarded, so the numpy
result is the non-finite array modelled by `none`. -/
theorem zero_normalizer_counterexample :
    geomNorm (1/2) 6 5 = 0 ∧
    make_geom_dens (1/2) 6 5 false = none ∧
    coverNorm 2 (1/2) 5 6 = 0 ∧
    make_cover_negative_binom_density 2 (1/2) 5 6 false = none := by
  have hg : geomNorm (1/2) 6 5 = 0 := by
    simp [geomNorm, geomCdf, geomPmf, Finset.sum_range_succ]
  have hc : coverNorm 2 (1/2) 5 6 = 0 := by
    simp [coverNorm, nbinomCdf, Finset.sum_range_succ]
  refine ⟨hg, ?_, hc, ?_⟩
  · simp only [make_geom_dens]
    rw [hg]
    simp
  · simp only [make_cover_negative_binom_density]
    rw [hc]
    simp

/-- Claim C1 (amended): when the truncated-range normalizer is exactly zero,
`negativeBinomialDensity` (whose division carries an explicit zero guard)
returns an all-zero array and raises no exception, while
`coverNegativeBinomialDensity` and `geometricDensity` raise no exception
either but divide by the zero normalizer unguarded, producing the non-finite
(`none`) array rather than an all-zero one. -/
theorem zero_normalizer_behaviour
    (r : ℕ) (p w : ℚ) (size_of_counts left_most : ℕ) (p2 : Option ℚ)
    (hn : negBinomNorm r p w size_of_counts left_most p2 = 0)
    (rc : ℕ) (pc : ℚ) (sizec leftc : ℕ) (drc : Bool)
    (hc : coverNorm rc pc sizec leftc = 0)
    (pg : ℚ) (a b : ℕ) (drg : Bool)
    (hg : geomNorm pg a b = 0) :
    (∀ i : ℕ,
      (make_negative_binom_density r p w size_of_counts left_most p2).getD i 0 = 0) ∧
    make_cover_negative_binom_density rc pc sizec leftc drc = none ∧
    make_geom_dens pg a b drg = none := by
  refine ⟨fun i => ?_, ?_, ?_⟩
  · by_cases hi : i < size_of_counts + 1
    · rw [make_negative_binom_density_getD r p w size_of_counts left_most p2 hi]
      simp [hn]
    · exact make_negative_binom_density_getD_ge r p w size_of_counts left_most p2
        (by omega)
  · simp [make_cover_negative_binom_density, hc]
  · simp [make_geom_dens, hg]

theorem zero_normalizer_behaviour_witness :
    (negBinomNorm 1 (1/2) (1/2) 2 3 none = 0 ∧
      coverNorm 2 (1/2) 5 6 = 0 ∧ geomNorm (1/2) 6 5 = 0) ∧
    ((∀ i : ℕ, (make_negative_binom_density 1 (1/2) (1/2) 2 3 none).getD i 0 = 0) ∧
      make_cover_negative_binom_density 2 (1/2) 5 6 false = none ∧
      make_geom_dens (1/2) 6 5 false = none) :=
  ⟨⟨by simp [negBinomNorm, nbinomCdf, Finset.sum_range_succ],
    by simp [coverNorm, nbinomCdf, Finset.sum_range_succ],
    by simp [geomNorm, geomCdf, geomPmf, Finset.sum_range_succ]⟩,
    zero_normalizer_behaviour 1 (1/2) (1/2) 2 3 none
      (by simp [negBinomNorm, nbinomCdf, Finset.sum_range_succ])
      2 (1/2) 5 6 false (by simp [coverNorm, nbinomCdf, Finset.sum_range_succ])
      (1/2) 6 5 false (by simp [geomNorm, geomCdf, geomPmf, Finset.sum_range_succ])⟩

/-- Claim C9 counterexample: in `geometricDensity(p=0.4, a=0, b=5)` the entry
at index `0` is `0` (the scipy geometric support starts at `k = 1`) while the
entry at index `1` is positive, so the array is not monotonically
non-increasing from index `0`. -/
theorem geom_density_counterexample :
    ((make_geom_dens (2/5) 0 5 false).getD []).getD 0 0 <
      ((make_geom_dens (2/5) 0 5 false).getD []).getD 1 0 := by
  norm_num [make_geom_dens, geomNorm, geomCdf, geomPmf, Finset.sum_range_succ,
    List.range_succ]

/-- Claim C2: for valid inputs (`leftMost ≤ sizeOfCounts`) with nonzero
combined normalizer, the entries of `negativeBinomialDensity` below
`leftMost` are zero and the sum of its entries over
`[leftMost, sizeOfCounts]` is exactly `1` over exact rationals. -/
theorem negbin_density_sums_to_one (r : ℕ) (p w : ℚ)
    (size_of_counts left_most : ℕ) (p2 : Option ℚ)
    (hls : left_most ≤ size_of_counts)
    (hn : negBinomNorm r p w size_of_counts left_most p2 ≠ 0) :
    (∀ i, i < left_most →
      (make_negative_binom_density r p w size_of_counts left_most p2).getD i 0 = 0) ∧
    ∑ k ∈ Finset.Icc left_most size_of_counts,
      (make_negative_binom_density r p w size_of_counts left_most p2).getD k 0 = 1 := by
  constructor
  · intro i hi
    rw [make_negative_binom_density_getD r p w size_of_counts left_most p2 (by omega)]
    rw [if_neg (by omega)]
  · have hentry : ∀ k ∈ Finset.Icc left_most size_of_counts,
        (make_negative_binom_density r p w size_of_counts left_most p2).getD k 0 =
          (w * nbinomPmf r (1 - (1 - p2.getD p)) k +
              (1 - w) * nbinomPmf r (1 - p) k) /
            negBinomNorm r p w size_of_counts left_most p2 := by
      intro k hk
      rw [Finset.mem_Icc] at hk
      rw [make_negative_binom_density_getD r p w size_of_counts left_most p2
        (by omega)]
      rw [if_pos hk.1, if_pos hn]
    rw [Finset.sum_congr rfl hentry, ← Finset.sum_div, Finset.sum_add_distrib,
      ← Finset.mul_sum, ← Finset.mul_sum,
      sum_Icc_eq_sub (nbinomPmf r (1 - (1 - p2.getD p))) (by omega),
      sum_Icc_eq_sub (nbinomPmf r (1 - p)) (by omega)]
    have hN : w * (∑ k ∈ Finset.range (size_of_counts + 1),
          nbinomPmf r (1 - (1 - p2.getD p)) k -
        ∑ k ∈ Finset.range left_most, nbinomPmf r (1 - (1 - p2.getD p)) k) +
        (1 - w) * (∑ k ∈ Finset.range (size_of_counts + 1), nbinomPmf r (1 - p) k -
          ∑ k ∈ Finset.range left_most, nbinomPmf r (1 - p) k) =
        negBinomNorm r p w size_of_counts left_most p2 := by
      simp only [negBinomNorm, nbinom_guard_eq]
      simp only [nbinomCdf]
      ring
    rw [hN]
    exact div_self hn

theorem negbin_density_sums_to_one_witness :
    ((1 : ℕ) ≤ 2 ∧ negBinomNorm 1 (1/2) (1/2) 2 1 none ≠ 0) ∧
    ((∀ i, i < 1 →
        (make_negative_binom_density 1 (1/2) (1/2) 2 1 none).getD i 0 = 0) ∧
      ∑ k ∈ Finset.Icc 1 2,
        (make_negative_binom_density 1 (1/2) (1/2) 2 1 none).getD k 0 = 1) :=
  ⟨⟨by decide,
    by norm_num [negBinomNorm, nbinomCdf, nbinomPmf, Finset.sum_range_succ, Nat.choose]⟩,
    negbin_density_sums_to_one 1 (1/2) (1/2) 2 1 none (by decide)
      (by norm_num [negBinomNorm, nbinomCdf, nbinomPmf, Finset.sum_range_succ, Nat.choose])⟩

/-- Claim C9 (amended): `geometricDensity(p=0.4, a=0, b=5)` returns an array
of length 6 whose entries sum to exactly 1, whose entry at index 0 is 0
(the geometric support starts at 1), and which is monotonically
non-increasing from index 1 to index 5. -/
theorem geom_density_amended :
    (make_geom_dens (2/5) 0 5 false).isSome = true ∧
    ((make_geom_dens (2/5) 0 5 false).getD []).length = 6 ∧
    ((make_geom_dens (2/5) 0 5 false).getD []).sum = 1 ∧
    ((make_geom_dens (2/5) 0 5 false).getD []).getD 0 0 = 0 ∧
    ((make_geom_dens (2/5) 0 5 false).getD []).getD 2 0 ≤
      ((make_geom_dens (2/5) 0 5 false).getD []).getD 1 0 ∧
    ((make_geom_dens (2/5) 0 5 false).getD []).getD 3 0 ≤
      ((make_geom_dens (2/5) 0 5 false).getD []).getD 2 0 ∧
    ((make_geom_dens (2/5) 0 5 false).getD []).getD 4 0 ≤
      ((make_geom_dens (2/5) 0 5 false).getD []).getD 3 0 ∧
    ((make_geom_dens (2/5) 0 5 false).getD []).getD 5 0 ≤
      ((make_geom_dens (2/5) 0 5 false).getD []).getD 4 0 := by
  norm_num [make_geom_dens, geomNorm, geomCdf, geomPmf, Finset.sum_range_succ,
    List.range_succ]

theorem sum_map_div (l : List ℚ) (c : ℚ) :
    (l.map fun x => x / c).sum = l.sum / c := by
  induction l with
  | nil => simp
  | cons a t ih => simp [ih, add_div]

theorem sum_zipWith_comb (w : ℚ) :
    ∀ gs ns : List ℚ, gs.length = ns.length →
      (List.zipWith (fun g n => w * g + (1 - w) * n) gs ns).sum =
        w * gs.sum + (1 - w) * ns.sum
  | [], [], _ => by simp
  | [], _ :: _, h => by simp at h
  | _ :: _, [], h => by simp at h
  | g :: gs, n :: ns, h => by
    have ih := sum_zipWith_comb w gs ns (by simpa using h)
    simp only [List.zipWith_cons_cons, List.sum_cons, ih]
    ring

/-- Claim C4: `pointFitScore` first zeroes the observed entries below
`leftMost` (without considering expected), restricts to the indices where
both the zeroed observed and the expected entries are nonzero, returns
exactly `0` when at most `numberOfParams + 1` such indices remain, and
otherwise returns `rmseaScore(stat, df, norm)` with
`df = validCount - 1 - numberOfParams` and
`stat = 2 * sum(observed * log(observed / expected))` over the valid
indices. -/
theorem point_fit_spec (counts_array expected : List ℚ) (norm : ℚ)
    (number_of_params left_most : ℕ) :
    validPairs counts_array expected left_most =
      ((counts_array.mapIdx fun i x => if i < left_most then 0 else x).zip
        expected).filter gofPairPred ∧
    ((validPairs counts_array expected left_most).length ≤ number_of_params + 1 →
      calculate_gof_for_point_fit counts_array expected norm number_of_params
        left_most = 0) ∧
    (number_of_params + 1 < (validPairs counts_array expected left_most).length →
      calculate_gof_for_point_fit counts_array expected norm number_of_params
        left_most =
      rmsea_gof
        (2 * ((validPairs counts_array expected left_most).map fun q =>
          (q.1 : ℝ) * Real.log ((q.1 : ℝ) / (q.2 : ℝ))).sum)
        ((((validPairs counts_array expected left_most).length : ℤ) - 1 -
          (number_of_params : ℤ) : ℤ) : ℝ)
        (norm : ℝ)) := by
  refine ⟨rfl, ?_, ?_⟩
  · intro h
    simp only [calculate_gof_for_point_fit]
    rw [if_pos h]
  · intro h
    simp only [calculate_gof_for_point_fit]
    rw [if_neg (by omega), mul_comm]

theorem point_fit_spec_witness :
    ((validPairs [0, 2] [1, 1] 0).length ≤ 0 + 1 ∧
      calculate_gof_for_point_fit [0, 2] [1, 1] 5 0 0 = 0) ∧
    (0 + 1 < (validPairs [0, 2, 3] [1, 1, 1] 0).length ∧
      calculate_gof_for_point_fit [0, 2, 3] [1, 1, 1] 9 0 0 =
        rmsea_gof
          (2 * ((validPairs [0, 2, 3] [1, 1, 1] 0).map fun q =>
            (q.1 : ℝ) * Real.log ((q.1 : ℝ) / (q.2 : ℝ))).sum)
          ((((validPairs [0, 2, 3] [1, 1, 1] 0).length : ℤ) - 1 - (0 : ℤ) : ℤ) : ℝ)
          ((9 : ℚ) : ℝ)) :=
  ⟨⟨by decide, (point_fit_spec [0, 2] [1, 1] 5 0 0).2.1 (by decide)⟩,
    ⟨by decide, (point_fit_spec [0, 2, 3] [1, 1, 1] 9 0 0).2.2 (by decide)⟩⟩

/-- Claim C6: for any weight `w` in `[0, 1]` and valid density inputs
(summing to 1, of equal length), `combineDensities` with
`onlyNegbin = False` returns the renormalized mixture
`w * geom + (1 - w) * negbin`, whose entries sum to 1, and with
`onlyNegbin = True` returns `(1 - w) * negbin` divided by the total mass of
the combined mixture — not by the negative-binomial component's own
mass. -/
theorem combine_densities_spec (negbin_dens geom_dens : List ℚ) (w frac p : ℚ)
    (allele_tr : ℕ) (hw0 : 0 ≤ w) (hw1 : w ≤ 1)
    (hn : negbin_dens.sum = 1) (hg : geom_dens.sum = 1)
    (hl : geom_dens.length = negbin_dens.length) :
    (combine_densities negbin_dens geom_dens w frac p allele_tr false).isSome
      = true ∧
    ((combine_densities negbin_dens geom_dens w frac p allele_tr false).getD
      []).sum = 1 ∧
    combine_densities negbin_dens geom_dens w frac p allele_tr true =
      some (negbin_dens.map fun x => (1 - w) * x /
        (List.zipWith (fun g n => w * g + (1 - w) * n)
          geom_dens negbin_dens).sum) := by
  have hsum : (List.zipWith (fun g n => w * g + (1 - w) * n)
      geom_dens negbin_dens).sum = 1 := by
    rw [sum_zipWith_comb w geom_dens negbin_dens hl, hg, hn]
    ring
  have hne : (List.zipWith (fun g n => w * g + (1 - w) * n)
      geom_dens negbin_dens).sum ≠ 0 := by
    rw [hsum]
    exact one_ne_zero
  refine ⟨?_, ?_, ?_⟩
  · simp only [combine_densities]
    rw [if_neg hne]
    simp
  · simp only [combine_densities]
    rw [if_neg hne]
    simp only [Bool.false_eq_true, if_false, Option.getD_some]
    rw [sum_map_div, hsum]
    norm_num
  · simp only [combine_densities]
    rw [if_neg hne]
    simp

theorem combine_densities_spec_witness :
    ((0 : ℚ) ≤ 1/2 ∧ (1/2 : ℚ) ≤ 1 ∧
      ([1/2, 1/2] : List ℚ).sum = 1 ∧ ([1, 0] : List ℚ).sum = 1 ∧
      ([1, 0] : List ℚ).length = ([1/2, 1/2] : List ℚ).length) ∧
    ((combine_densities [1/2, 1/2] [1, 0] (1/2) 0 0 5 false).isSome = true ∧
      ((combine_densities [1/2, 1/2] [1, 0] (1/2) 0 0 5 false).getD []).sum = 1 ∧
      combine_densities [1/2, 1/2] [1, 0] (1/2) 0 0 5 true =
        some (([1/2, 1/2] : List ℚ).map fun x => (1 - 1/2) * x /
          (List.zipWith (fun g n => (1/2) * g + (1 - 1/2) * n)
            [1, 0] [1/2, 1/2]).sum)) :=
  ⟨⟨by norm_num, by norm_num, by norm_num, by norm_num, by norm_num⟩,
    combine_densities_spec [1/2, 1/2] [1, 0] (1/2) 0 0 5
      (by norm_num) (by norm_num) (by norm_num) (by norm_num) (by norm_num)⟩

/-- Claim C8 counterexample: `coverageDistribution`
(`get_counts_dist_from_df`) does not leave its input table unchanged: the
pandas column assignment `stats_df['cover'] = stats_df['ref'] +
stats_df['alt']` adds a `cover` column to the caller's frame. -/
theorem coverage_distribution_mutates :
    (get_counts_dist_from_df ⟨[⟨1, 2, 7⟩], none⟩).1 ≠
      (⟨[⟨1, 2, 7⟩], none⟩ : StatsDf) := by
  simp [get_counts_dist_from_df]

/-- Claim C8 (amended): `tableToMatrix` (`stats_df_to_numpy`) and
`overallGof` (`calculate_overall_gof`) are pure readers of the observation
table and leave it unchanged, but `coverageDistribution`
(`get_counts_dist_from_df`) mutates its input: it stores the derived
`cover = ref + alt` column into the caller's frame. -/
theorem table_ops_frame (stats_df : StatsDf) (min_tr max_tr num_params : ℕ)
    (density_func : ℕ → List ℚ) (main_allele_is_ref : Bool) :
    (stats_df_to_numpy_st stats_df min_tr max_tr).1 = stats_df ∧
    (calculate_overall_gof_st stats_df density_func num_params
      main_allele_is_ref min_tr max_tr).1 = stats_df ∧
    (get_counts_dist_from_df stats_df).1 =
      { stats_df with
        cover := some (stats_df.rows.map fun r => r.ref + r.alt) } :=
  ⟨rfl, rfl, rfl⟩

/-- Claim C10: in `overallGof` the expected vector for each fixed coverage
value is stored in a `dtype=np.int_` matrix, so each entry
`densityFn(fixedValue)[k] * norm` is truncated toward zero before being
passed to `pointFitScore`; a fractional expected value strictly between 0
and 1 becomes 0, and a zero expected entry is excluded from the
jointly-nonzero index mask. -/
theorem overall_gof_expected_truncation (observed : List (List ℤ))
    (density_func : ℕ → List ℚ) (min_tr max_tr k c : ℕ)
    (hk : k < max_tr + 1) (hc : c < max_tr + 1) (hmc : min_tr ≤ c) :
    ((expectedMatrix observed density_func min_tr max_tr).getD k []).getD c 0 =
      truncQ ((density_func c).getD k 0 * ((colNorm observed c : ℤ) : ℚ)) ∧
    (∀ x : ℚ, 0 < x → x < 1 → truncQ x = 0) ∧
    (∀ o : ℚ, gofPairPred (o, 0) = false) := by
  refine ⟨?_, ?_, ?_⟩
  · rw [expectedMatrix, getD_map_range _ _ hk, getD_map_range _ _ hc,
      if_pos hmc, expectedCol, getD_map_range _ _ hk]
  · intro x hx0 hx1
    rw [truncQ, if_pos hx0.le]
    exact Int.floor_eq_zero_iff.mpr ⟨hx0.le, hx1⟩
  · intro o
    simp [gofPairPred]

theorem overall_gof_expected_truncation_witness :
    ((0 : ℕ) < 0 + 1 ∧ (0 : ℕ) < 0 + 1 ∧ (0 : ℕ) ≤ 0) ∧
    (((expectedMatrix [[1]] (fun _ => [1/2]) 0 0).getD 0 []).getD 0 0 =
      truncQ ((([1/2] : List ℚ).getD 0 0) * ((colNorm [[1]] 0 : ℤ) : ℚ)) ∧
    (∀ x : ℚ, 0 < x → x < 1 → truncQ x = 0) ∧
    (∀ o : ℚ, gofPairPred (o, 0) = false)) :=
  ⟨⟨by decide, by decide, by decide⟩,
    overall_gof_expected_truncation [[1]] (fun _ => [1/2]) 0 0 0 0
      (by decide) (by decide) (by decide)⟩

theorem mapM_ok_of_forall {α β : Type} (f : α → Except Unit β) (g : α → β) :
    ∀ l : List α, (∀ a ∈ l, f a = .ok (g a)) → l.mapM f = .ok (l.map g)
  | [], _ => rfl
  | a :: t, h => by
    have ha := h a (List.mem_cons_self a t)
    have ht := mapM_ok_of_forall f g t fun x hx => h x (List.mem_cons_of_mem a hx)
    rw [List.mapM_cons, ha, ht, List.map_cons]
    rfl

theorem forall_ok_of_mapM_ok {α β : Type} (f : α → Except Unit β) :
    ∀ (l : List α) (bs : List β), l.mapM f = .ok bs → ∀ a ∈ l, ∃ b, f a = .ok b
  | [], _, _, a, ha => by simp at ha
  | x :: t, bs, h, a, ha => by
    rw [List.mapM_cons] at h
    cases hfx : f x with
    | error e =>
      rw [hfx] at h
      simp [bind, Except.bind] at h
    | ok b =>
      rw [hfx] at h
      cases hmt : t.mapM f with
      | error e =>
        rw [hmt] at h
        simp [bind, Except.bind] at h
      | ok bs2 =>
        rcases List.mem_cons.mp ha with rfl | hat
        · exact ⟨b, hfx⟩
        · exact forall_ok_of_mapM_ok f t bs2 hmt a hat

theorem cellValue_ok_of_no_dup (rows : List StatsRow) (k m : ℕ)
    (h : (matchRows rows k m).length ≤ 1) :
    cellValue rows k m = .ok (specCell rows k m) := by
  cases hm : matchRows rows k m with
  | nil => simp only [cellValue, specCell, hm]
  | cons r t =>
    cases t with
    | nil => simp only [cellValue, specCell, hm]
    | cons r2 t2 =>
      rw [hm] at h
      simp at h

theorem cellValue_error_of_dup (rows : List StatsRow) (k m : ℕ)
    (h : 2 ≤ (matchRows rows k m).length) :
    cellValue rows k m = .error () := by
  cases hm : matchRows rows k m with
  | nil =>
    rw [hm] at h
    simp at h
  | cons r t =>
    cases t with
    | nil =>
      rw [hm] at h
      simp at h
    | cons r2 t2 => simp only [cellValue, hm]

/-- Claim C7: `tableToMatrix` writes, for each `(ref, alt)` pair in
`[minTr, maxTr]^2`, the `counts` value of the unique matching table row (or
`0` if no row matches, and `0` outside the range), and fails with a
data-integrity error whenever more than one table row matches the same
`(ref, alt)` pair of the range. -/
theorem stats_df_to_numpy_spec (rows : List StatsRow) (min_tr max_tr : ℕ) :
    ((∀ k ∈ Finset.Icc min_tr max_tr, ∀ m ∈ Finset.Icc min_tr max_tr,
        (matchRows rows k m).length ≤ 1) →
      stats_df_to_numpy rows min_tr max_tr =
        .ok (specMatrix rows min_tr max_tr)) ∧
    ((∃ k ∈ Finset.Icc min_tr max_tr, ∃ m ∈ Finset.Icc min_tr max_tr,
        2 ≤ (matchRows rows k m).length) →
      ∀ M, stats_df_to_numpy rows min_tr max_tr ≠ .ok M) := by
  constructor
  · intro h
    rw [stats_df_to_numpy, specMatrix]
    apply mapM_ok_of_forall
    intro k hk
    have hk' := List.mem_range.mp hk
    apply mapM_ok_of_forall
    intro m hm
    have hm' := List.mem_range.mp hm
    by_cases hcond : min_tr ≤ k ∧ min_tr ≤ m
    · rw [if_pos hcond, if_pos hcond]
      exact cellValue_ok_of_no_dup rows k m
        (h k (Finset.mem_Icc.mpr ⟨hcond.1, by omega⟩) m
          (Finset.mem_Icc.mpr ⟨hcond.2, by omega⟩))
    · rw [if_neg hcond, if_neg hcond]
  · rintro ⟨k, hk, m, hm, hdup⟩ M hM
    rw [Finset.mem_Icc] at hk hm
    rw [stats_df_to_numpy] at hM
    obtain ⟨rowM, hrow⟩ := forall_ok_of_mapM_ok _ _ _ hM k
      (List.mem_range.mpr (by omega))
    obtain ⟨b, hb⟩ := forall_ok_of_mapM_ok _ _ _ hrow m
      (List.mem_range.mpr (by omega))
    rw [if_pos ⟨hk.1, hm.1⟩, cellValue_error_of_dup rows k m hdup] at hb
    exact Except.noConfusion hb

theorem stats_df_to_numpy_spec_witness :
    (∀ k ∈ Finset.Icc 5 6, ∀ m ∈ Finset.Icc 5 6,
      (matchRows [⟨5, 5, 10⟩, ⟨5, 6, 3⟩] k m).length ≤ 1) ∧
    stats_df_to_numpy [⟨5, 5, 10⟩, ⟨5, 6, 3⟩] 5 6 =
      .ok (specMatrix [⟨5, 5, 10⟩, ⟨5, 6, 3⟩] 5 6) ∧
    specMatrix [⟨5, 5, 10⟩, ⟨5, 6, 3⟩] 5 6 =
      [[0, 0, 0, 0, 0, 0, 0], [0, 0, 0, 0, 0, 0, 0], [0, 0, 0, 0, 0, 0, 0],
       [0, 0, 0, 0, 0, 0, 0], [0, 0, 0, 0, 0, 0, 0], [0, 0, 0, 0, 0, 10, 3],
       [0, 0, 0, 0, 0, 0, 0]] :=
  ⟨by decide,
    (stats_df_to_numpy_spec [⟨5, 5, 10⟩, ⟨5, 6, 3⟩] 5 6).1 (by decide),
    by decide⟩
